import Mathlib

/-!
Verification development for the WALT bisulfite read mapper fragment
(`mapping.cpp` and `walt.cpp`).

The embedding translates the C++ sources into executable Lean definitions:

* strings become `List Char`; machine integers become `Nat` (all loop
  indices and counters in the source are `uint32_t` and stay far below
  `2^32` in every statement proved here, so no wraparound modelling is
  needed);
* out-of-bounds C++ reads (which are undefined behaviour) are modelled by
  `List.getD` with an explicit default character; every theorem whose truth
  could depend on such a read either hypothesises in-bounds access or is
  precisely about the out-of-bounds access;
* the `while` loops of `LowerBound`/`UpperBound` and the `for` loops are
  translated to structurally recursive functions on an explicit fuel that
  is initialised to an upper bound of the trip count, so that all
  definitions reduce inside the kernel (`decide`/`rfl` work on concrete
  inputs);
* constants and helpers from the missing header `mapping.hpp`
  (`HASHLEN`, `F2SEEDWIGTH`, `F2SEEDPOSITION`, `getHashValue`, `getNT`)
  are modelled from the specification and kept as explicit parameters
  (`SeedConfig`) or definitions marked "Modelled from the spec".
-/

/-- A chromosome: converted sequence plus its recorded length
(fields of the C++ `Chromosome` used by `mapping.cpp`). -/
structure Chromosome where
  sequence : List Char
  length : Nat
deriving DecidableEq, Repr

/-- The genome is the ordered list of chromosomes; `genome[chrom_id]`. -/
def Genome := List Chromosome

/-- A candidate genome position `(chrom_id, chrom_pos)`. -/
structure GenomePosition where
  chrom_id : Nat
  chrom_pos : Nat
deriving DecidableEq, Repr

/-- The best-match record, field order as in the C++ constructor call
`BestMatch(chrom_id, chrom_pos, 1, num_of_mismatch)`. -/
structure BestMatch where
  chrom_id : Nat
  chrom_pos : Nat
  times : Nat
  mismatch : Nat
deriving DecidableEq, Repr

/-- The hash bucket table: hash value to bucket of genome positions
(`HashTable::find` returning `end()` is modelled by `none`). -/
def HashTable := Nat → Option (List GenomePosition)

/-- Modelled from the spec: the seed configuration constants of the missing
header `mapping.hpp`.  `HASHLEN` is the length in bases of the primary hash
prefix, `F2SEEDWIGTH` the number of bases covered by the primary hash, and
`F2SEEDPOSITION` the fixed table of discriminator offsets. -/
structure SeedConfig where
  HASHLEN : Nat
  F2SEEDWIGTH : Nat
  F2SEEDPOSITION : Nat → Nat

/-- Modelled from the spec: `getNT` maps the 2-bit code `{A=0,C=1,G=2,T=3}`
back to a base character; the source uses `getNT(3)` for `N` ("N set to 3",
and the spec says N is mapped to T). -/
def getNT (n : Nat) : Char :=
  if n = 0 then 'A' else if n = 1 then 'C' else if n = 2 then 'G' else 'T'

/-- Per-character conversion performed by the body of the `C2T` loop in
`mapping.cpp`: `N` becomes `getNT 3`, `C` becomes `T`, others pass through. -/
def c2tChar (c : Char) : Char :=
  if c = 'N' then getNT 3 else if c = 'C' then 'T' else c

/-- The list of characters appended by `C2T(orginal_read, read_len, read)`:
one converted character per `i < read_len`. -/
def c2tList (orginal_read : List Char) (read_len : Nat) : List Char :=
  (List.range read_len).map (fun i => c2tChar (orginal_read.getD i 'A'))

/-- `C2T` from `mapping.cpp`: appends the converted characters to `read`. -/
def C2T (orginal_read : List Char) (read_len : Nat) (read : List Char) : List Char :=
  read ++ c2tList orginal_read read_len

/-- Modelled from the spec: the 2-bit base code `{A=0, C=1, G=2, T=3}`
(every other character, in particular `N`, is hashed as code 3). -/
def baseCode (c : Char) : Nat :=
  if c = 'A' then 0 else if c = 'C' then 1 else if c = 'G' then 2 else 3

/-- Modelled from the spec: `getHashValue` (missing header) computes the
primary hash as the direct 2-bit encoding of the bases at the primary hash
positions `F2SEEDPOSITION[0 .. F2SEEDWIGTH)` of the seed. -/
def getHashValue (cfg : SeedConfig) (s : List Char) : Nat :=
  (List.range cfg.F2SEEDWIGTH).foldl
    (fun h i => 4 * h + baseCode (s.getD (cfg.F2SEEDPOSITION i) 'A')) 0

/-- The indices of `s` read by `getHashValue cfg s`. -/
def hashReadIndices (cfg : SeedConfig) : List Nat :=
  (List.range cfg.F2SEEDWIGTH).map cfg.F2SEEDPOSITION

/-- The reference base probed by the binary searches of `mapping.cpp`
(lines 32-33 and 50-51):
`genome[positions[j].chrom_id].sequence[positions[j].chrom_pos + F2SEEDPOSITION[cmp_pos]]`. -/
def discBase (genome : Genome) (positions : List GenomePosition) (cfg : SeedConfig)
    (cmp_pos j : Nat) : Char :=
  let pos := positions.getD j ⟨0, 0⟩
  ((genome.getD pos.chrom_id ⟨[], 0⟩).sequence).getD
    (pos.chrom_pos + cfg.F2SEEDPOSITION cmp_pos) 'A'

/-- Fuel-driven translation of the `while (low < high)` loop of
`LowerBound`.  The fuel only bounds the trip count; with the fuel the
wrapper supplies it never runs out (each iteration shrinks `high - low`). -/
def lowerBoundGo (cfg : SeedConfig) (chr : Char) (cmp_pos : Nat)
    (positions : List GenomePosition) (genome : Genome) :
    Nat → Nat → Nat → Nat
  | 0, low, _ => low
  | fuel + 1, low, high =>
    if low < high then
      if chr ≤ discBase genome positions cfg cmp_pos ((low + high) / 2) then
        lowerBoundGo cfg chr cmp_pos positions genome fuel low ((low + high) / 2)
      else
        lowerBoundGo cfg chr cmp_pos positions genome fuel ((low + high) / 2 + 1) high
    else low

/-- `LowerBound` from `mapping.cpp` (lines 25-41). -/
def LowerBound (cfg : SeedConfig) (low high : Nat) (chr : Char) (cmp_pos : Nat)
    (positions : List GenomePosition) (genome : Genome) : Nat :=
  lowerBoundGo cfg chr cmp_pos positions genome (high + 1 - low) low high

/-- Fuel-driven translation of the `while (low < high)` loop of
`UpperBound`. -/
def upperBoundGo (cfg : SeedConfig) (chr : Char) (cmp_pos : Nat)
    (positions : List GenomePosition) (genome : Genome) :
    Nat → Nat → Nat → Nat
  | 0, low, _ => low
  | fuel + 1, low, high =>
    if low < high then
      if discBase genome positions cfg cmp_pos ((low + high + 1) / 2) ≤ chr then
        upperBoundGo cfg chr cmp_pos positions genome fuel ((low + high + 1) / 2) high
      else
        upperBoundGo cfg chr cmp_pos positions genome fuel low ((low + high + 1) / 2 - 1)
    else low

/-- `UpperBound` from `mapping.cpp` (lines 43-59). -/
def UpperBound (cfg : SeedConfig) (low high : Nat) (chr : Char) (cmp_pos : Nat)
    (positions : List GenomePosition) (genome : Genome) : Nat :=
  upperBoundGo cfg chr cmp_pos positions genome (high + 1 - low) low high

/-- The `for (p = F2SEEDWIGTH; p < seed_length; ++p)` refinement loop of
`GetRegion` (lines 71-74), fuel `seed_length - p`. -/
def refineGo (cfg : SeedConfig) (read : List Char) (positions : List GenomePosition)
    (genome : Genome) : Nat → Nat → Nat → Nat → Nat × Nat
  | 0, _, l, u => (l, u)
  | fuel + 1, p, l, u =>
    refineGo cfg read positions genome fuel (p + 1)
      (LowerBound cfg l u (read.getD (cfg.F2SEEDPOSITION p) 'A') p positions genome)
      (UpperBound cfg
        (LowerBound cfg l u (read.getD (cfg.F2SEEDPOSITION p) 'A') p positions genome)
        u (read.getD (cfg.F2SEEDPOSITION p) 'A') p positions genome)

/-- `GetRegion` from `mapping.cpp` (lines 61-80): the empty bucket yields the
preset empty region `(1, 0)`; otherwise the bucket `[0, size-1]` is refined
and a final `l > u` also yields `(1, 0)`. -/
def GetRegion (cfg : SeedConfig) (read : List Char) (positions : List GenomePosition)
    (genome : Genome) (seed_length : Nat) : Nat × Nat :=
  if positions.length = 0 then (1, 0)
  else
    let lu := refineGo cfg read positions genome (seed_length - cfg.F2SEEDWIGTH)
      cfg.F2SEEDWIGTH 0 (positions.length - 1)
    if lu.1 > lu.2 then (1, 0) else lu

/-- The mismatch-counting `for` loop of `SingleEndMapping` (lines 109-116):
walks `p` from `0` to `read_len`, comparing `chrom.sequence[q]` with
`read[p]`, and breaks as soon as the count exceeds `cap`
(`best_match.mismatch`).  Fuel is `read_len - p`. -/
def countGo (chrom_seq read : List Char) (cap read_len : Nat) :
    Nat → Nat → Nat → Nat → Nat
  | 0, _, _, num => num
  | fuel + 1, p, q, num =>
    if p < read_len then
      let num2 := if chrom_seq.getD q 'A' ≠ read.getD p 'A' then num + 1 else num
      if num2 > cap then num2
      else countGo chrom_seq read cap read_len fuel (p + 1) (q + 1) num2
    else num

/-- The number of mismatches computed for a candidate starting at `chrom_pos`
(the source initialises `q = chrom_pos`, `p = 0`, `num_of_mismatch = 0`). -/
def countMismatch (chrom_seq read : List Char) (cap read_len chrom_pos : Nat) : Nat :=
  countGo chrom_seq read cap read_len read_len 0 chrom_pos 0

/-- Body of the candidate loop of `SingleEndMapping` (lines 100-128): bounds
checks, mismatch counting against the current best, and the best-match
update branches. -/
def verifyCandidate (genome : Genome) (read : List Char) (read_len seed_i : Nat)
    (bm : BestMatch) (pos : GenomePosition) : BestMatch :=
  if pos.chrom_pos < seed_i then bm
  else
    let chrom_pos := pos.chrom_pos - seed_i
    let chrom := genome.getD pos.chrom_id ⟨[], 0⟩
    if chrom_pos + read_len ≥ chrom.length then bm
    else
      let num := countMismatch chrom.sequence read bm.mismatch read_len chrom_pos
      if num < bm.mismatch then ⟨pos.chrom_id, chrom_pos, 1, num⟩
      else if bm.mismatch = num then
        if bm.chrom_id ≠ pos.chrom_id ∨ bm.chrom_pos ≠ chrom_pos then
          { bm with chrom_id := pos.chrom_id, chrom_pos := chrom_pos,
                    times := bm.times + 1 }
        else bm
      else bm

/-- Body of the seed-offset loop of `SingleEndMapping` (lines 92-129): form
the suffix, hash it, look the bucket up, refine it with `GetRegion` and run
the candidate loop `for (j = region.first; j <= region.second; ++j)`. -/
def seedStep (cfg : SeedConfig) (genome : Genome) (hash_table : HashTable)
    (seed_length : Nat) (read : List Char) (read_len : Nat)
    (bm : BestMatch) (seed_i : Nat) : BestMatch :=
  let read_seed := read.drop seed_i
  let hash_value := getHashValue cfg read_seed
  match hash_table hash_value with
  | none => bm
  | some ps =>
    let region := GetRegion cfg read_seed ps genome seed_length
    (List.range' region.1 (region.2 + 1 - region.1)).foldl
      (fun b j => verifyCandidate genome read read_len seed_i b (ps.getD j ⟨0, 0⟩)) bm

/-- `SingleEndMapping` from `mapping.cpp` (lines 82-131): reads shorter than
`HASHLEN` return immediately; otherwise the read is C-to-T converted and the
seed offsets `0 ≤ seed_i < 7` are processed in order. -/
def SingleEndMapping (cfg : SeedConfig) (orginal_read : List Char) (genome : Genome)
    (hash_table : HashTable) (best_match : BestMatch) (seed_length : Nat) : BestMatch :=
  let read_len := orginal_read.length
  if read_len < cfg.HASHLEN then best_match
  else
    let read := C2T orginal_read read_len []
    (List.range 7).foldl (seedStep cfg genome hash_table seed_length read read_len)
      best_match

/-- Plain Hamming-distance walk (no cap): the count of mismatching base
pairs at offsets `p, p+1, ...` against `q, q+1, ...`, for `fuel` steps.
Used to characterise `countGo` and to count tied genome positions. -/
def hammingGo (chrom_seq read : List Char) : Nat → Nat → Nat → Nat
  | 0, _, _ => 0
  | fuel + 1, p, q =>
    (if chrom_seq.getD q 'A' ≠ read.getD p 'A' then 1 else 0) +
      hammingGo chrom_seq read fuel (p + 1) (q + 1)

/-- Hamming distance between `read` and the window of `chrom` starting at
`p`. -/
def hammingAt (chrom : Chromosome) (read : List Char) (p : Nat) : Nat :=
  hammingGo chrom.sequence read read.length 0 p

/-- The number of window positions of `chrom` admissible for the verifier
(`chrom_pos + read_len < chrom.length`, the source's strict bound) whose
Hamming distance to `read` is exactly `m`. -/
def chromTiedCount (chrom : Chromosome) (read : List Char) (m : Nat) : Nat :=
  ((List.range chrom.length).filter
    (fun p => decide (p + read.length < chrom.length) && (hammingAt chrom read p == m))).length

/-- The number of distinct genomic positions `(chrom_id, chrom_pos)` whose
window has Hamming distance exactly `m` to `read`. -/
def tiedCount (genome : Genome) (read : List Char) (m : Nat) : Nat :=
  (List.map (fun chrom => chromTiedCount chrom read m) genome).sum

/-- Modelled from the spec: the boundary behaviour "at offset `> 0` the
suffix is too short and must be skipped safely" — a variant of
`SingleEndMapping` that skips every seed offset whose suffix is shorter
than `HASHLEN`.  The source has no such guard; this definition exists only
to exhibit the divergence. -/
def SingleEndMappingSkipShort (cfg : SeedConfig) (orginal_read : List Char)
    (genome : Genome) (hash_table : HashTable) (best_match : BestMatch)
    (seed_length : Nat) : BestMatch :=
  let read_len := orginal_read.length
  if read_len < cfg.HASHLEN then best_match
  else
    let read := C2T orginal_read read_len []
    (List.range 7).foldl
      (fun bm seed_i =>
        if read_len - seed_i < cfg.HASHLEN then bm
        else seedStep cfg genome hash_table seed_length read read_len bm seed_i)
      best_match

/-- The number of candidates the verifier loop of `seedStep` enumerates for
seed offset `seed_i` (the size of the refined region; `0` when the hash is
absent from the bucket table). -/
def seedRegionSize (cfg : SeedConfig) (genome : Genome) (hash_table : HashTable)
    (seed_length : Nat) (read : List Char) (seed_i : Nat) : Nat :=
  let read_seed := read.drop seed_i
  match hash_table (getHashValue cfg read_seed) with
  | none => 0
  | some ps =>
    let region := GetRegion cfg read_seed ps genome seed_length
    region.2 + 1 - region.1

/-- Modelled from the spec: "a bucket whose refined region exceeds `b`
(configurable) is skipped for that seed offset" — the seed-offset body with
the candidate cap `b` the specification describes.  The source's
`SingleEndMapping` has no `b` parameter; this definition exists only to
exhibit the divergence. -/
def seedStepCapB (cfg : SeedConfig) (genome : Genome) (hash_table : HashTable)
    (seed_length b : Nat) (read : List Char) (read_len : Nat)
    (bm : BestMatch) (seed_i : Nat) : BestMatch :=
  let read_seed := read.drop seed_i
  match hash_table (getHashValue cfg read_seed) with
  | none => bm
  | some ps =>
    let region := GetRegion cfg read_seed ps genome seed_length
    if region.2 + 1 - region.1 > b then bm
    else
      (List.range' region.1 (region.2 + 1 - region.1)).foldl
        (fun x j => verifyCandidate genome read read_len seed_i x (ps.getD j ⟨0, 0⟩)) bm

/-- Modelled from the spec: `SingleEndMapping` with the bucket-overflow cap
`b` of spec section 4.4 applied per seed offset. -/
def SingleEndMappingCapB (cfg : SeedConfig) (b : Nat) (orginal_read : List Char)
    (genome : Genome) (hash_table : HashTable) (best_match : BestMatch)
    (seed_length : Nat) : BestMatch :=
  let read_len := orginal_read.length
  if read_len < cfg.HASHLEN then best_match
  else
    let read := C2T orginal_read read_len []
    (List.range 7).foldl (seedStepCapB cfg genome hash_table seed_length b read read_len)
      best_match

/-- Lexicographic comparison (non-strict) of equal-length character lists,
as a boolean. -/
def lexLeB : List Char → List Char → Bool
  | [], _ => true
  | _ :: _, [] => false
  | a :: as, b :: bs => decide (a < b) || (decide (a = b) && lexLeB as bs)

/-- The sequence of reference bases at discriminator offsets
`F2SEEDPOSITION[p], F2SEEDPOSITION[p+1], ...` for the bucket entry `j`,
`fuel` entries long. -/
def keyFromGo (genome : Genome) (positions : List GenomePosition) (cfg : SeedConfig) :
    Nat → Nat → Nat → List Char
  | 0, _, _ => []
  | fuel + 1, p, j =>
    discBase genome positions cfg p j ::
      keyFromGo genome positions cfg fuel (p + 1) j

/-- The discriminator key of bucket entry `j`: reference bases at offsets
`F2SEEDPOSITION[p .. seed_length)`. -/
def keyFrom (genome : Genome) (positions : List GenomePosition) (cfg : SeedConfig)
    (seed_length p j : Nat) : List Char :=
  keyFromGo genome positions cfg (seed_length - p) p j

/-- The bucket slice `[l, u]` is sorted lexicographically by the
discriminator keys starting at component `p` (the positional-index
invariant of spec section 3, restricted to a slice). -/
def SortedFrom (genome : Genome) (positions : List GenomePosition) (cfg : SeedConfig)
    (seed_length p l u : Nat) : Prop :=
  ∀ k, k ≤ u → ∀ i, i ≤ k → l ≤ i →
    lexLeB (keyFrom genome positions cfg seed_length p i)
      (keyFrom genome positions cfg seed_length p k) = true

instance (genome : Genome) (positions : List GenomePosition) (cfg : SeedConfig)
    (seed_length p l u : Nat) :
    Decidable (SortedFrom genome positions cfg seed_length p l u) := by
  unfold SortedFrom
  infer_instance

/-! ### Command-line model (`walt.cpp`)

The `OptionParser` itself lives in the external `smithlab_cpp` library; its
observable results (help/about/missing flags, the bound variables, leftover
arguments) are modelled as a record, and the decision chain of `main`
(lines 175-319 of `walt.cpp`) as a pure function on that record. -/

/-- `s` ends with `t`. -/
def strEndsWith (s t : List Char) : Bool :=
  s.reverse.take t.length == t.reverse

/-- Modelled from the spec: `is_valid_filename` (external `smithlab_os`)
checks that the file name carries the given suffix ("the index path must
carry the suffix `.dbindex`"; reads files "must end in `.fastq` or `.fq`"). -/
def is_valid_filename (filename suffix : List Char) : Bool :=
  strEndsWith filename ('.' :: suffix)

/-- Helper of `smithlabSplit`: cut at every separator character. -/
def splitCommaGo (acc : List Char) : List Char → List (List Char)
  | [] => [acc.reverse]
  | c :: cs =>
    if c = ',' then acc.reverse :: splitCommaGo [] cs
    else splitCommaGo (c :: acc) cs

/-- Modelled from the spec: `smithlab::split(s, ",", false)` — split a
comma-separated list, dropping empty fields (`get_empty_fields` is `false`
at both call sites in `walt.cpp`). -/
def smithlabSplit (s : List Char) : List (List Char) :=
  (splitCommaGo [] s).filter (fun x => !x.isEmpty)

/-- The observable state after option parsing in `main`: parser status plus
the variables bound by the `add_opt` calls (defaults from `walt.cpp` lines
100-115). -/
structure OptState where
  argcOne : Bool
  helpRequested : Bool
  aboutRequested : Bool
  optionMissing : Bool
  indexFile : List Char
  readsFileS : List Char
  readsFileP1 : List Char
  readsFileP2 : List Char
  outputFile : List Char
  leftoverArgs : List (List Char)
  maxMismatches : Nat
  nReadsToProcess : Nat
  b : Nat
  topK : Nat
  fragRange : Nat
  numThreads : Nat
deriving DecidableEq, Repr

/-- The initial values of `main`'s locals (`walt.cpp` lines 100-115):
`max_mismatches = 6`, `n_reads_to_process = 1000000`, `b = 5000`,
`top_k = 50`, `frag_range = 1000`, `num_of_threads = 1`. -/
def initialOpts : OptState :=
  { argcOne := false, helpRequested := false, aboutRequested := false
    optionMissing := false, indexFile := [], readsFileS := []
    readsFileP1 := [], readsFileP2 := [], outputFile := []
    leftoverArgs := [], maxMismatches := 6, nReadsToProcess := 1000000
    b := 5000, topK := 50, fragRange := 1000, numThreads := 1 }

/-- The numeric command-line options registered by the `add_opt` calls of
`walt.cpp` (lines 145-171). -/
inductive WaltOpt where
  | mismatch
  | number
  | bucket
  | topk
  | fraglen
  | thread
deriving DecidableEq, Repr

/-- Effect of an option on `main`'s locals, following the variable each
`add_opt` call binds.  Lines 163-164 bind the `bucket`/`-b` option to the
variable `top_k` (and lines 165-167 bind `topk`/`-k` to `top_k` as well);
no option is bound to the variable `b`. -/
def setNumOpt (o : OptState) : WaltOpt → Nat → OptState
  | .mismatch, v => { o with maxMismatches := v }
  | .number, v => { o with nReadsToProcess := v }
  | .bucket, v => { o with topK := v }
  | .topk, v => { o with topK := v }
  | .fraglen, v => { o with fragRange := v }
  | .thread, v => { o with numThreads := v }

/-- Where `main` ends up: an early `return EXIT_SUCCESS`, an early
`return EXIT_FAILURE`, or the mapping calls with the arguments they
receive (`ProcessSingledEndReads` gets `b`; `ProcessPairedEndReads` gets
`b` and `top_k`). -/
inductive MainOutcome where
  | exitedSuccess
  | exitedFailure
  | runSingle (b maxMismatches nReads : Nat)
  | runPaired (b topK fragRange : Nat)
deriving DecidableEq, Repr

/-- Condition of `walt.cpp` line 193: single-end read options given. -/
def singleModeB (o : OptState) : Bool :=
  !o.readsFileS.isEmpty && o.readsFileP1.isEmpty && o.readsFileP2.isEmpty

/-- Condition of `walt.cpp` line 196: paired-end read options given. -/
def pairedModeB (o : OptState) : Bool :=
  o.readsFileS.isEmpty && !o.readsFileP1.isEmpty && !o.readsFileP2.isEmpty

/-- Every file in the list carries suffix `.fastq` or `.fq`. -/
def validFastqList (files : List (List Char)) : Bool :=
  files.all (fun f =>
    is_valid_filename f ['f','a','s','t','q'] || is_valid_filename f ['f','q'])

/-- The decision chain of `main` (`walt.cpp` lines 175-319): help/about and
`option_missing` return `EXIT_SUCCESS`; a bad index suffix returns
`EXIT_FAILURE`; an invalid read-option combination returns `EXIT_FAILURE`;
leftover arguments return `EXIT_SUCCESS`; bad reads suffixes and (for
paired-end) mismatched mate file counts or out-of-range `k` return
`EXIT_FAILURE`; otherwise the mapping calls run (`n_reads_to_process`
capped at 5000000, line 286-288). -/
def mainOutcome (o : OptState) : MainOutcome :=
  if o.argcOne || o.helpRequested then .exitedSuccess
  else if o.aboutRequested then .exitedSuccess
  else if o.optionMissing then .exitedSuccess
  else if !is_valid_filename o.indexFile ['d','b','i','n','d','e','x'] then .exitedFailure
  else if singleModeB o then
    if !o.leftoverArgs.isEmpty then .exitedSuccess
    else if !validFastqList (smithlabSplit o.readsFileS) then .exitedFailure
    else
      .runSingle o.b o.maxMismatches
        (if o.nReadsToProcess > 5000000 then 5000000 else o.nReadsToProcess)
  else if pairedModeB o then
    if !o.leftoverArgs.isEmpty then .exitedSuccess
    else if (smithlabSplit o.readsFileP1).length ≠ (smithlabSplit o.readsFileP2).length then
      .exitedFailure
    else if !validFastqList (smithlabSplit o.readsFileP1) then .exitedFailure
    else if !validFastqList (smithlabSplit o.readsFileP2) then .exitedFailure
    else if o.topK < 2 then .exitedFailure
    else if o.topK > 300 then .exitedFailure
    else .runPaired o.b o.topK o.fragRange
  else .exitedFailure

/-! ### Concrete instances used by counterexamples and witnesses -/

/-- Minimal seed configuration: primary hash over the first base
(`HASHLEN = 1`, `F2SEEDWIGTH = 1`), identity discriminator table. -/
def cfg0 : SeedConfig := ⟨1, 1, fun p => p⟩

/-- Read for the C2/C4 instances (no `C`/`N`, so conversion is the
identity). -/
def R2 : List Char := ['A','T','G','G','A','T','T','G']

/-- Reference for the C2/C4 instances: `R2` occurs exactly twice, at
positions 1 and 9. -/
def S2 : List Char := ['G'] ++ R2 ++ R2 ++ ['G']

def gen2 : Genome := [⟨S2, 18⟩]

/-- Honest bucket table for `gen2` under `cfg0`: bucket `h` holds exactly
the positions whose primary-hash base has code `h`, in ascending order
(so every bucket satisfies the positional-index invariant). -/
def ht2 : HashTable := fun h =>
  some (((List.range 18).filter (fun p => baseCode (S2.getD p 'A') == h)).map
    (fun p => (⟨0, p⟩ : GenomePosition)))

/-- Read for the C3 instance. -/
def R3 : List Char := ['A','T','G','G','A','T','T','G']

/-- Reference for the C3 instance: contains `R3` with exactly one mismatch
(at window position 1) and no exact occurrence. -/
def S3 : List Char := ['G','A','T','G','G','A','T','T','A','G','G','G']

def gen3 : Genome := [⟨S3, 12⟩]

def ht3 : HashTable := fun h =>
  some (((List.range 12).filter (fun p => baseCode (S3.getD p 'A') == h)).map
    (fun p => (⟨0, p⟩ : GenomePosition)))

/-- Seed configuration for the C5 instance: two-base primary hash
(`HASHLEN = F2SEEDWIGTH = 2`). -/
def cfg5 : SeedConfig := ⟨2, 2, fun p => p⟩

/-- Read of length exactly `HASHLEN` for the C5 instance. -/
def R5 : List Char := ['T','T']

def S5 : List Char := ['G','T','A','G']

def gen5 : Genome := [⟨S5, 4⟩]

/-- Honest 2-mer bucket table for `gen5`: `GT` hashes to 11 (position 0),
`TA` to 12 (position 1), `AG` to 2 (position 2); all other hashes absent. -/
def ht5 : HashTable := fun h =>
  if h = 11 then some [⟨0, 0⟩]
  else if h = 12 then some [⟨0, 1⟩]
  else if h = 2 then some [⟨0, 2⟩]
  else none

/-- Configuration for the C1 instances: one primary-hash base, one
discriminator (`seed_length = 2`). -/
def cfgC1 : SeedConfig := ⟨2, 1, fun p => p⟩

def genC1 : Genome := [⟨['A','A'], 2⟩]

/-- Single-entry bucket whose discriminator base (`A`) differs from the
read used against it. -/
def posC1 : List GenomePosition := [⟨0, 0⟩]

def readC1 : List Char := ['T','T']

def genW : Genome := [⟨['A','G'], 2⟩]

/-- Two-entry bucket sorted by the discriminator base (`A` then `G`). -/
def posW : List GenomePosition := [⟨0, 1⟩, ⟨0, 0⟩]

def readW : List Char := ['G','G']

/-- A command line whose parse reports a missing required option
(`-i`/`-o` are registered as required in `walt.cpp` lines 120-125 and 144). -/
def cmOptMissing : OptState := { initialOpts with optionMissing := true }

/-- A well-formed single-end command line (valid index, reads and output
names). -/
def cmValidSingle : OptState :=
  { initialOpts with
      indexFile := ['i','n','.','d','b','i','n','d','e','x']
      readsFileS := ['r','.','f','q']
      outputFile := ['o','u','t','.','s','a','m'] }

/-- `cmValidSingle` after parsing `-b 100` (the `bucket` option). -/
def cmBucket100 : OptState := setNumOpt cmValidSingle .bucket 100

/-- A command line with a leftover (unparsed) argument. -/
def cmLeftover : OptState := { cmValidSingle with leftoverArgs := [['x']] }

/-!
## Theorems
-/

/-- Per-character conversion maps nothing to `C` or `N`. -/
theorem c2tChar_ne (x : Char) : c2tChar x ≠ 'C' ∧ c2tChar x ≠ 'N' := by
  unfold c2tChar
  split_ifs with h1 h2
  · exact ⟨by decide, by decide⟩
  · exact ⟨by decide, by decide⟩
  · exact ⟨h2, h1⟩

/-- Per-character conversion is idempotent. -/
theorem c2tChar_idem (x : Char) : c2tChar (c2tChar x) = c2tChar x := by
  by_cases h1 : x = 'N'
  · subst h1; decide
  · by_cases h2 : x = 'C'
    · subst h2; decide
    · have hx : c2tChar x = x := by unfold c2tChar; rw [if_neg h1, if_neg h2]
      rw [hx]
      exact hx

/-- Element `i < n` of the converted list. -/
theorem c2tList_getD (orig : List Char) (n i : Nat) (h : i < n) :
    (c2tList orig n).getD i 'A' = c2tChar (orig.getD i 'A') := by
  unfold c2tList
  rw [List.getD_eq_getElem?_getD, List.getElem?_map, List.getElem?_range h]
  rfl

/-- C10: for an input over `{A,C,G,T,N}` with `read_len` equal to its
length, `C2T` appends exactly `read_len` characters, the appended text
contains neither `C` nor `N`, and `C2T` is idempotent on already-converted
reads. -/
theorem c2t_append_noC_noN_idempotent (orig read : List Char)
    (halpha : ∀ c ∈ orig, c = 'A' ∨ c = 'C' ∨ c = 'G' ∨ c = 'T' ∨ c = 'N') :
    C2T orig orig.length read = read ++ c2tList orig orig.length ∧
    (c2tList orig orig.length).length = orig.length ∧
    (∀ c ∈ c2tList orig orig.length, c ≠ 'C' ∧ c ≠ 'N') ∧
    C2T (C2T orig orig.length []) orig.length [] = C2T orig orig.length [] := by
  refine ⟨rfl, by simp [c2tList], ?_, ?_⟩
  · intro c hc
    unfold c2tList at hc
    obtain ⟨i, hi, rfl⟩ := List.mem_map.1 hc
    exact c2tChar_ne _
  · show [] ++ c2tList (C2T orig orig.length []) orig.length = C2T orig orig.length []
    unfold C2T
    simp only [List.nil_append]
    unfold c2tList
    refine List.map_congr_left ?_
    intro i hi
    rw [List.mem_range] at hi
    show c2tChar ((c2tList orig orig.length).getD i 'A') = c2tChar (orig.getD i 'A')
    rw [c2tList_getD orig orig.length i hi, c2tChar_idem]

/-- C10 witness: the properties at the concrete input `ACGTN`. -/
theorem c2t_append_noC_noN_idempotent_witness :
    C2T (C2T ['A','C','G','T','N'] (['A','C','G','T','N'] : List Char).length [])
      (['A','C','G','T','N'] : List Char).length [] =
    C2T ['A','C','G','T','N'] (['A','C','G','T','N'] : List Char).length [] :=
  (c2t_append_noC_noN_idempotent ['A','C','G','T','N'] [] (by decide)).2.2.2

/-- C6: a read shorter than `HASHLEN` returns immediately with the
best-match record unchanged. -/
theorem singleEndMapping_short_read_unchanged (cfg : SeedConfig)
    (orginal_read : List Char) (genome : Genome) (hash_table : HashTable)
    (best_match : BestMatch) (seed_length : Nat)
    (h : orginal_read.length < cfg.HASHLEN) :
    SingleEndMapping cfg orginal_read genome hash_table best_match seed_length =
      best_match := by
  unfold SingleEndMapping
  simp [h]

/-- C6 witness: a length-1 read under a `HASHLEN = 2` configuration. -/
theorem singleEndMapping_short_read_unchanged_witness :
    SingleEndMapping cfg5 ['T'] gen5 ht5 ⟨1, 2, 3, 4⟩ 2 = ⟨1, 2, 3, 4⟩ :=
  singleEndMapping_short_read_unchanged cfg5 ['T'] gen5 ht5 ⟨1, 2, 3, 4⟩ 2 (by decide)

set_option maxRecDepth 40000 in
/-- C2 counterexample: on `gen2` the read `R2` has exactly 2 genomic
positions at the best mismatch count 0, yet `times` ends at 14: the same
two positions are re-reached (and re-counted) by every later seed offset,
because the tie branch only compares against the single stored position. -/
theorem singleEndMapping_times_overcount_cex :
    (SingleEndMapping cfg0 R2 gen2 ht2 ⟨0, 0, 0, 7⟩ 1).times = 14 ∧
    (SingleEndMapping cfg0 R2 gen2 ht2 ⟨0, 0, 0, 7⟩ 1).mismatch = 0 ∧
    tiedCount gen2 R2 0 = 2 ∧ (14 : Nat) ≠ 2 := by
  decide

set_option maxRecDepth 40000 in
/-- C3 counterexample: starting from the initial record with
`max_mismatches = 0` (so `mismatch = 1`), a candidate with exactly
`max_mismatches + 1` mismatches takes the tie branch: the final record has
`times = 1` but `mismatch = 1 > max_mismatches`. -/
theorem singleEndMapping_tie_at_max_plus_one_cex :
    SingleEndMapping cfg0 R3 gen3 ht3 ⟨0, 0, 0, 1⟩ 1 = ⟨0, 1, 1, 1⟩ ∧
    1 ≤ (SingleEndMapping cfg0 R3 gen3 ht3 ⟨0, 0, 0, 1⟩ 1).times ∧
    0 < (SingleEndMapping cfg0 R3 gen3 ht3 ⟨0, 0, 0, 1⟩ 1).mismatch := by
  decide

set_option maxRecDepth 40000 in
/-- C4: `SingleEndMapping` has no bucket cap `b`: with `b = 1` every seed
offset's refined region holds more than 1 candidate, so the spec-modelled
capped variant leaves the record untouched, while the source function
verifies all of them and produces a mapping. -/
theorem singleEndMapping_no_bucket_cap :
    SingleEndMapping cfg0 R2 gen2 ht2 ⟨0, 0, 0, 7⟩ 1 = ⟨0, 9, 14, 0⟩ ∧
    SingleEndMappingCapB cfg0 1 R2 gen2 ht2 ⟨0, 0, 0, 7⟩ 1 = ⟨0, 0, 0, 7⟩ ∧
    ((List.range 7).all
      (fun i => decide (1 < seedRegionSize cfg0 gen2 ht2 1 (C2T R2 8 []) i))) = true := by
  decide

set_option maxRecDepth 40000 in
/-- C5: on a read of length exactly `HASHLEN`, seed offset 0 is processed
and mappable (last conjunct), but seed offset 1 is **not** skipped: its
suffix has length `HASHLEN - 1`, the hash computation reads index
`HASHLEN - 1 = 1` of that length-1 suffix (an out-of-bounds read, modelled
by the `getD` default), and the final record differs from the spec-modelled
guarded variant that skips short suffixes. -/
theorem singleEndMapping_short_suffix_not_skipped :
    SingleEndMapping cfg5 R5 gen5 ht5 ⟨0, 0, 0, 7⟩ 2 = ⟨0, 0, 1, 1⟩ ∧
    SingleEndMappingSkipShort cfg5 R5 gen5 ht5 ⟨0, 0, 0, 7⟩ 2 = ⟨0, 0, 0, 7⟩ ∧
    R5.length = cfg5.HASHLEN ∧
    (R5.drop 1).length < cfg5.HASHLEN ∧
    1 ∈ hashReadIndices cfg5 ∧
    (R5.drop 1).length ≤ 1 ∧
    SingleEndMapping cfg5 ['T', 'A'] gen5 ht5 ⟨0, 0, 0, 7⟩ 2 = ⟨0, 1, 1, 0⟩ := by
  decide

/-- C7 counterexample: a command line with a missing required option, and
one with leftover arguments, both make `main` return `EXIT_SUCCESS`
(exit code 0) — configuration errors that do **not** exit non-zero. -/
theorem mainOutcome_exits_zero_on_config_error_cex :
    mainOutcome cmOptMissing = MainOutcome.exitedSuccess ∧
    cmOptMissing.optionMissing = true ∧
    mainOutcome cmLeftover = MainOutcome.exitedSuccess ∧
    cmLeftover.leftoverArgs ≠ [] := by
  decide

/-- C8: parsing `-b 100` leaves `b` at its default 5000 (the option is
bound to `top_k`), so the mapping call receives `b = 5000`, not 100. -/
theorem bucket_option_ignored_for_b :
    cmBucket100.b = 5000 ∧ cmBucket100.topK = 100 ∧
    mainOutcome cmBucket100 = MainOutcome.runSingle 5000 6 1000000 ∧
    mainOutcome cmValidSingle = MainOutcome.runSingle 5000 6 1000000 ∧
    ¬ mainOutcome cmBucket100 = MainOutcome.runSingle 100 6 1000000 := by
  decide

/-- C1 counterexample: a sorted single-entry bucket whose discriminator
base (`A`) differs from the read's base (`T`): `GetRegion` still returns
the non-empty region `[0, 0]`, which therefore contains a position whose
reference base at the discriminator offset does not equal the suffix's
base. -/
theorem getRegion_nonmatching_position_cex :
    GetRegion cfgC1 readC1 posC1 genC1 2 = (0, 0) ∧
    SortedFrom genC1 posC1 cfgC1 2 1 0 0 ∧
    discBase genC1 posC1 cfgC1 1 0 ≠ readC1.getD (cfgC1.F2SEEDPOSITION 1) 'A' := by
  decide

/-- A property preserved by every step of a left fold holds of the result. -/
theorem foldl_preserve {α β : Type} (P : α → Prop) (f : α → β → α)
    (hf : ∀ a b, P a → P (f a b)) :
    ∀ (l : List β) (a : α), P a → P (l.foldl f a) := by
  intro l
  induction l with
  | nil => intro a h; exact h
  | cons b t ih =>
    intro a h
    rw [List.foldl_cons]
    exact ih (f a b) (hf a b h)

/-- The candidate update keeps `mismatch ≤ M + 1` and keeps
`mismatch ≤ M → 1 ≤ times`, for records starting at mismatch `M + 1`. -/
theorem verifyCandidate_preserves (genome : Genome) (read : List Char)
    (read_len seed_i M : Nat) (bm : BestMatch) (pos : GenomePosition)
    (h1 : bm.mismatch ≤ M + 1) (h2 : bm.mismatch ≤ M → 1 ≤ bm.times) :
    (verifyCandidate genome read read_len seed_i bm pos).mismatch ≤ M + 1 ∧
    ((verifyCandidate genome read read_len seed_i bm pos).mismatch ≤ M →
      1 ≤ (verifyCandidate genome read read_len seed_i bm pos).times) := by
  unfold verifyCandidate
  dsimp only
  split_ifs with hskip hlen hlt heq hdiff
  · exact ⟨h1, h2⟩
  · exact ⟨h1, h2⟩
  · exact ⟨le_trans (Nat.le_of_lt hlt) h1, fun _ => Nat.le_refl 1⟩
  · exact ⟨h1, fun _ => Nat.succ_le_succ (Nat.zero_le bm.times)⟩
  · exact ⟨h1, h2⟩
  · exact ⟨h1, h2⟩

/-- The seed-offset step preserves the same invariant. -/
theorem seedStep_preserves (cfg : SeedConfig) (genome : Genome)
    (hash_table : HashTable) (seed_length : Nat) (read : List Char)
    (read_len M : Nat) (bm : BestMatch) (seed_i : Nat)
    (h1 : bm.mismatch ≤ M + 1) (h2 : bm.mismatch ≤ M → 1 ≤ bm.times) :
    (seedStep cfg genome hash_table seed_length read read_len bm seed_i).mismatch ≤ M + 1 ∧
    ((seedStep cfg genome hash_table seed_length read read_len bm seed_i).mismatch ≤ M →
      1 ≤ (seedStep cfg genome hash_table seed_length read read_len bm seed_i).times) := by
  cases hht : hash_table (getHashValue cfg (read.drop seed_i)) with
  | none => simp only [seedStep, hht]; exact ⟨h1, h2⟩
  | some ps =>
    simp only [seedStep, hht]
    exact foldl_preserve
      (fun b => b.mismatch ≤ M + 1 ∧ (b.mismatch ≤ M → 1 ≤ b.times)) _
      (fun a j hp =>
        verifyCandidate_preserves genome read read_len seed_i M a (ps.getD j ⟨0, 0⟩)
          hp.1 hp.2)
      _ bm ⟨h1, h2⟩

/-- C3 (amended): starting from the initial record
(`mismatch = max_mismatches + 1`, `times = 0`), the final mismatch never
exceeds `max_mismatches + 1`, and whenever the final mismatch is at most
`max_mismatches` (a genuine mapping was found) the final `times` is at
least 1.  The converse direction claimed by C3 fails: the tie branch can
raise `times` while `mismatch` still equals `max_mismatches + 1` (see the
counterexample), so a reported mapping must additionally check
`mismatch ≤ max_mismatches`. -/
theorem singleEndMapping_mismatch_invariant (cfg : SeedConfig) (genome : Genome)
    (hash_table : HashTable) (orginal_read : List Char)
    (seed_length max_mismatches cid cpos : Nat) :
    (SingleEndMapping cfg orginal_read genome hash_table
      ⟨cid, cpos, 0, max_mismatches + 1⟩ seed_length).mismatch ≤ max_mismatches + 1 ∧
    ((SingleEndMapping cfg orginal_read genome hash_table
        ⟨cid, cpos, 0, max_mismatches + 1⟩ seed_length).mismatch ≤ max_mismatches →
      1 ≤ (SingleEndMapping cfg orginal_read genome hash_table
        ⟨cid, cpos, 0, max_mismatches + 1⟩ seed_length).times) := by
  have hinit :
      (⟨cid, cpos, 0, max_mismatches + 1⟩ : BestMatch).mismatch ≤ max_mismatches + 1 ∧
      ((⟨cid, cpos, 0, max_mismatches + 1⟩ : BestMatch).mismatch ≤ max_mismatches →
        1 ≤ (⟨cid, cpos, 0, max_mismatches + 1⟩ : BestMatch).times) := by
    refine ⟨Nat.le_refl (max_mismatches + 1), fun hc => ?_⟩
    have hc2 : max_mismatches + 1 ≤ max_mismatches := hc
    omega
  unfold SingleEndMapping
  dsimp only
  split_ifs with h
  · exact hinit
  · exact foldl_preserve
      (fun b => b.mismatch ≤ max_mismatches + 1 ∧ (b.mismatch ≤ max_mismatches → 1 ≤ b.times))
      (seedStep cfg genome hash_table seed_length
        (C2T orginal_read orginal_read.length []) orginal_read.length)
      (fun a i hp =>
        seedStep_preserves cfg genome hash_table seed_length
          (C2T orginal_read orginal_read.length []) orginal_read.length
          max_mismatches a i hp.1 hp.2)
      (List.range 7) ⟨cid, cpos, 0, max_mismatches + 1⟩ hinit

set_option maxRecDepth 40000 in
/-- C3 amended-theorem witness: on the C2 instance (max 6) the final
mismatch is 0 ≤ 6, so the implication yields `times ≥ 1`. -/
theorem singleEndMapping_mismatch_invariant_witness :
    1 ≤ (SingleEndMapping cfg0 R2 gen2 ht2 ⟨0, 0, 0, 7⟩ 1).times :=
  (singleEndMapping_mismatch_invariant cfg0 gen2 ht2 R2 1 6 0 0).2 (by decide)

/-- The capped mismatch walk returns the true Hamming count when it is at
most `cap`, and `cap + 1` when the walk broke early. -/
theorem countGo_char (chrom_seq read : List Char) (cap read_len : Nat) :
    ∀ fuel p q num, p + fuel ≤ read_len → num ≤ cap →
      countGo chrom_seq read cap read_len fuel p q num =
        (if num + hammingGo chrom_seq read fuel p q ≤ cap
         then num + hammingGo chrom_seq read fuel p q else cap + 1) := by
  intro fuel
  induction fuel with
  | zero =>
    intro p q num hp hn
    simp [countGo, hammingGo, hn]
  | succ f ih =>
    intro p q num hp hn
    have hplt : p < read_len := by omega
    simp only [countGo, hammingGo]
    rw [if_pos hplt]
    by_cases hmis : chrom_seq.getD q 'A' ≠ read.getD p 'A'
    · rw [if_pos hmis, if_pos hmis]
      by_cases hbr : num + 1 > cap
      · rw [if_pos hbr]
        rw [if_neg (by omega : ¬ num + (1 + hammingGo chrom_seq read f (p + 1) (q + 1)) ≤ cap)]
        omega
      · rw [if_neg hbr]
        rw [ih (p + 1) (q + 1) (num + 1) (by omega) (by omega)]
        rw [show num + (1 + hammingGo chrom_seq read f (p + 1) (q + 1)) =
            num + 1 + hammingGo chrom_seq read f (p + 1) (q + 1) from by omega]
    · rw [if_neg hmis, if_neg hmis]
      rw [if_neg (by omega : ¬ num > cap)]
      rw [ih (p + 1) (q + 1) num (by omega) hn]
      rw [show num + (0 + hammingGo chrom_seq read f (p + 1) (q + 1)) =
          num + hammingGo chrom_seq read f (p + 1) (q + 1) from by omega]

/-- `countMismatch` in terms of the plain Hamming count. -/
theorem countMismatch_char (chrom_seq read : List Char) (cap read_len chrom_pos : Nat) :
    countMismatch chrom_seq read cap read_len chrom_pos =
      if hammingGo chrom_seq read read_len 0 chrom_pos ≤ cap
      then hammingGo chrom_seq read read_len 0 chrom_pos else cap + 1 := by
  have h := countGo_char chrom_seq read cap read_len read_len 0 chrom_pos 0
    (by omega) (Nat.zero_le cap)
  simpa [countMismatch] using h

/-- The branch structure of `verifyCandidate` once both bounds checks pass. -/
theorem verifyCandidate_eq (genome : Genome) (read : List Char)
    (read_len seed_i : Nat) (bm : BestMatch) (pos : GenomePosition)
    (hskip : ¬ pos.chrom_pos < seed_i)
    (hlen : ¬ (pos.chrom_pos - seed_i + read_len ≥ (genome.getD pos.chrom_id ⟨[], 0⟩).length)) :
    verifyCandidate genome read read_len seed_i bm pos =
      (if countMismatch (genome.getD pos.chrom_id ⟨[], 0⟩).sequence read bm.mismatch
            read_len (pos.chrom_pos - seed_i) < bm.mismatch then
        ⟨pos.chrom_id, pos.chrom_pos - seed_i, 1,
          countMismatch (genome.getD pos.chrom_id ⟨[], 0⟩).sequence read bm.mismatch
            read_len (pos.chrom_pos - seed_i)⟩
      else if bm.mismatch = countMismatch (genome.getD pos.chrom_id ⟨[], 0⟩).sequence read
            bm.mismatch read_len (pos.chrom_pos - seed_i) then
        if bm.chrom_id ≠ pos.chrom_id ∨ bm.chrom_pos ≠ pos.chrom_pos - seed_i then
          ⟨pos.chrom_id, pos.chrom_pos - seed_i, bm.times + 1, bm.mismatch⟩
        else bm
      else bm) := by
  unfold verifyCandidate
  rw [if_neg hskip]
  dsimp only
  rw [if_neg hlen]

/-- C2 (amended): the best-match update is idempotent per candidate —
verifying the same candidate again immediately never changes the record
(in particular `times` is not incremented twice by consecutive duplicates).
`times` counts tie events against the single stored representative, which
is overwritten on each differing tie, so a position re-reached after a
different tying position is counted again (see the counterexample). -/
theorem verifyCandidate_idempotent (genome : Genome) (read : List Char)
    (read_len seed_i : Nat) (bm : BestMatch) (pos : GenomePosition) :
    verifyCandidate genome read read_len seed_i
      (verifyCandidate genome read read_len seed_i bm pos) pos =
    verifyCandidate genome read read_len seed_i bm pos := by
  by_cases hskip : pos.chrom_pos < seed_i
  · have e : verifyCandidate genome read read_len seed_i bm pos = bm := by
      unfold verifyCandidate
      rw [if_pos hskip]
    rw [e]
    exact e
  · by_cases hlen : pos.chrom_pos - seed_i + read_len ≥ (genome.getD pos.chrom_id ⟨[], 0⟩).length
    · have e : verifyCandidate genome read read_len seed_i bm pos = bm := by
        unfold verifyCandidate
        rw [if_neg hskip]
        dsimp only
        rw [if_pos hlen]
      rw [e]
      exact e
    · have hc : ∀ cap, countMismatch (genome.getD pos.chrom_id ⟨[], 0⟩).sequence read cap
          read_len (pos.chrom_pos - seed_i) =
          if hammingGo (genome.getD pos.chrom_id ⟨[], 0⟩).sequence read read_len 0
              (pos.chrom_pos - seed_i) ≤ cap
          then hammingGo (genome.getD pos.chrom_id ⟨[], 0⟩).sequence read read_len 0
              (pos.chrom_pos - seed_i)
          else cap + 1 :=
        fun cap => countMismatch_char _ _ cap _ _
      rcases Nat.lt_trichotomy
        (hammingGo (genome.getD pos.chrom_id ⟨[], 0⟩).sequence read read_len 0
          (pos.chrom_pos - seed_i)) bm.mismatch with h1 | h2 | h3
      · -- strict improvement: record replaced, second pass ties on itself
        have eX : verifyCandidate genome read read_len seed_i bm pos =
            ⟨pos.chrom_id, pos.chrom_pos - seed_i, 1,
              hammingGo (genome.getD pos.chrom_id ⟨[], 0⟩).sequence read read_len 0
                (pos.chrom_pos - seed_i)⟩ := by
          rw [verifyCandidate_eq genome read read_len seed_i bm pos hskip hlen]
          rw [hc bm.mismatch, if_pos (Nat.le_of_lt h1), if_pos h1]
        rw [eX]
        rw [verifyCandidate_eq genome read read_len seed_i _ pos hskip hlen]
        dsimp only
        rw [hc, if_pos (Nat.le_refl _), if_neg (Nat.lt_irrefl _), if_pos rfl]
        rw [if_neg (by simp)]
      · -- tie at the current best
        by_cases hdiff : bm.chrom_id ≠ pos.chrom_id ∨ bm.chrom_pos ≠ pos.chrom_pos - seed_i
        · have eX : verifyCandidate genome read read_len seed_i bm pos =
              ⟨pos.chrom_id, pos.chrom_pos - seed_i, bm.times + 1, bm.mismatch⟩ := by
            rw [verifyCandidate_eq genome read read_len seed_i bm pos hskip hlen]
            rw [hc bm.mismatch, if_pos (Nat.le_of_eq h2), if_neg (by omega), if_pos h2.symm,
              if_pos hdiff]
          rw [eX]
          rw [verifyCandidate_eq genome read read_len seed_i _ pos hskip hlen]
          dsimp only
          rw [hc, if_pos (Nat.le_of_eq h2), if_neg (by omega), if_pos h2.symm]
          rw [if_neg (by simp)]
        · have e : verifyCandidate genome read read_len seed_i bm pos = bm := by
            rw [verifyCandidate_eq genome read read_len seed_i bm pos hskip hlen]
            rw [hc bm.mismatch, if_pos (Nat.le_of_eq h2), if_neg (by omega), if_pos h2.symm,
              if_neg hdiff]
          rw [e]
          exact e
      · -- candidate worse than the current best: unchanged
        have e : verifyCandidate genome read read_len seed_i bm pos = bm := by
          rw [verifyCandidate_eq genome read read_len seed_i bm pos hskip hlen]
          rw [hc bm.mismatch,
            if_neg (by omega :
              ¬ hammingGo (genome.getD pos.chrom_id ⟨[], 0⟩).sequence read read_len 0
                  (pos.chrom_pos - seed_i) ≤ bm.mismatch),
            if_neg (by omega : ¬ bm.mismatch + 1 < bm.mismatch),
            if_neg (by omega : ¬ bm.mismatch = bm.mismatch + 1)]
        rw [e]
        exact e

/-- The lower-bound search stays within `[low, high]` (and in particular
the fuel-driven loop terminates with a value, for every input). -/
theorem lowerBoundGo_bounds (cfg : SeedConfig) (chr : Char) (cmp_pos : Nat)
    (positions : List GenomePosition) (genome : Genome) :
    ∀ fuel lo hi, lo ≤ hi →
      lo ≤ lowerBoundGo cfg chr cmp_pos positions genome fuel lo hi ∧
      lowerBoundGo cfg chr cmp_pos positions genome fuel lo hi ≤ hi := by
  intro fuel
  induction fuel with
  | zero => intro lo hi h; exact ⟨Nat.le_refl lo, h⟩
  | succ f ih =>
    intro lo hi h
    simp only [lowerBoundGo]
    by_cases hlh : lo < hi
    · rw [if_pos hlh]
      by_cases hcc : chr ≤ discBase genome positions cfg cmp_pos ((lo + hi) / 2)
      · rw [if_pos hcc]
        have hb := ih lo ((lo + hi) / 2) (by omega)
        exact ⟨hb.1, le_trans hb.2 (by omega)⟩
      · rw [if_neg hcc]
        have hb := ih ((lo + hi) / 2 + 1) hi (by omega)
        exact ⟨le_trans (by omega) hb.1, hb.2⟩
    · rw [if_neg hlh]
      exact ⟨Nat.le_refl lo, h⟩

/-- The upper-bound search stays within `[low, high]`. -/
theorem upperBoundGo_bounds (cfg : SeedConfig) (chr : Char) (cmp_pos : Nat)
    (positions : List GenomePosition) (genome : Genome) :
    ∀ fuel lo hi, lo ≤ hi →
      lo ≤ upperBoundGo cfg chr cmp_pos positions genome fuel lo hi ∧
      upperBoundGo cfg chr cmp_pos positions genome fuel lo hi ≤ hi := by
  intro fuel
  induction fuel with
  | zero => intro lo hi h; exact ⟨Nat.le_refl lo, h⟩
  | succ f ih =>
    intro lo hi h
    simp only [upperBoundGo]
    by_cases hlh : lo < hi
    · rw [if_pos hlh]
      by_cases hcc : discBase genome positions cfg cmp_pos ((lo + hi + 1) / 2) ≤ chr
      · rw [if_pos hcc]
        have hb := ih ((lo + hi + 1) / 2) hi (by omega)
        exact ⟨le_trans (by omega) hb.1, hb.2⟩
      · rw [if_neg hcc]
        have hb := ih lo ((lo + hi + 1) / 2 - 1) (by omega)
        exact ⟨hb.1, le_trans hb.2 (by omega)⟩
    · rw [if_neg hlh]
      exact ⟨Nat.le_refl lo, h⟩

/-- Refinement of the degenerate range `[0, 0]` stays `[0, 0]`: both
binary searches return immediately on a single-element range. -/
theorem refineGo_self (cfg : SeedConfig) (read : List Char)
    (positions : List GenomePosition) (genome : Genome) :
    ∀ fuel p, refineGo cfg read positions genome fuel p 0 0 = (0, 0) := by
  intro fuel
  induction fuel with
  | zero => intro p; rfl
  | succ f ih => intro p; exact ih (p + 1)

/-- C9: the searches and `GetRegion` are total (the fuel is an upper bound
on the trip count, so every input produces a value); the empty bucket
yields the empty region `(1, 0)` (`first > second`); a single-element bucket
is narrowed to that single index `(0, 0)` — no infinite loop; and both
binary searches always land inside `[low, high]`. -/
theorem getRegion_termination_edges :
    (∀ cfg read genome seed_length,
      GetRegion cfg read [] genome seed_length = (1, 0)) ∧
    (∀ cfg read genome seed_length pos,
      GetRegion cfg read [pos] genome seed_length = (0, 0)) ∧
    (∀ cfg low high chr cmp_pos positions genome, low ≤ high →
      low ≤ LowerBound cfg low high chr cmp_pos positions genome ∧
      LowerBound cfg low high chr cmp_pos positions genome ≤ high) ∧
    (∀ cfg low high chr cmp_pos positions genome, low ≤ high →
      low ≤ UpperBound cfg low high chr cmp_pos positions genome ∧
      UpperBound cfg low high chr cmp_pos positions genome ≤ high) := by
  refine ⟨?_, ?_, ?_, ?_⟩
  · intro cfg read genome L
    rfl
  · intro cfg read genome L pos
    unfold GetRegion
    rw [if_neg (by simp)]
    dsimp only [List.length_singleton]
    rw [show (1 : Nat) - 1 = 0 from rfl]
    rw [refineGo_self cfg read [pos] genome (L - cfg.F2SEEDWIGTH) cfg.F2SEEDWIGTH]
    rfl
  · intro cfg low high chr cmp_pos positions genome h
    exact lowerBoundGo_bounds cfg chr cmp_pos positions genome (high + 1 - low) low high h
  · intro cfg low high chr cmp_pos positions genome h
    exact upperBoundGo_bounds cfg chr cmp_pos positions genome (high + 1 - low) low high h

/-- C9 witness: the search bounds at a concrete input. -/
theorem getRegion_termination_edges_witness :
    0 ≤ LowerBound cfg0 0 1 'A' 0 [] ([] : Genome) ∧
    LowerBound cfg0 0 1 'A' 0 [] ([] : Genome) ≤ 1 :=
  getRegion_termination_edges.2.2.1 cfg0 0 1 'A' 0 [] ([] : Genome) (by decide)

/-- First components of lexicographically ordered lists are ordered. -/
theorem lexLeB_cons_le (a b : Char) (as bs : List Char)
    (h : lexLeB (a :: as) (b :: bs) = true) : a ≤ b := by
  simp only [lexLeB, Bool.or_eq_true, Bool.and_eq_true, decide_eq_true_eq] at h
  rcases h with h | ⟨h, -⟩
  · exact le_of_lt h
  · exact le_of_eq h

/-- Lexicographic order with equal heads restricts to the tails. -/
theorem lexLeB_cons_same (a : Char) (as bs : List Char)
    (h : lexLeB (a :: as) (a :: bs) = true) : lexLeB as bs = true := by
  simp only [lexLeB, Bool.or_eq_true, Bool.and_eq_true, decide_eq_true_eq] at h
  rcases h with h | ⟨-, h⟩
  · exact absurd h (lt_irrefl a)
  · exact h

/-- The discriminator key starting at `p < seed_length` is the base at `p`
followed by the key starting at `p + 1`. -/
theorem keyFrom_cons (genome : Genome) (positions : List GenomePosition)
    (cfg : SeedConfig) (L p j : Nat) (hp : p < L) :
    keyFrom genome positions cfg L p j =
      discBase genome positions cfg p j ::
        keyFrom genome positions cfg L (p + 1) j := by
  unfold keyFrom
  rw [show L - p = (L - (p + 1)) + 1 from by omega]
  simp only [keyFromGo]

/-- A lexicographically sorted slice has monotone bases at its first
discriminator component. -/
theorem sortedFrom_mono (genome : Genome) (positions : List GenomePosition)
    (cfg : SeedConfig) (L p l u : Nat) (hp : p < L)
    (hs : SortedFrom genome positions cfg L p l u) :
    ∀ i k, l ≤ i → i ≤ k → k ≤ u →
      discBase genome positions cfg p i ≤ discBase genome positions cfg p k := by
  intro i k hli hik hku
  have h := hs k hku i hik hli
  rw [keyFrom_cons genome positions cfg L p i hp,
    keyFrom_cons genome positions cfg L p k hp] at h
  exact lexLeB_cons_le _ _ _ _ h

/-- A subslice on which the first discriminator component is constant
remains lexicographically sorted in the remaining components. -/
theorem sortedFrom_step (genome : Genome) (positions : List GenomePosition)
    (cfg : SeedConfig) (L p l u l2 u2 : Nat) (hp : p < L)
    (hs : SortedFrom genome positions cfg L p l u)
    (hl : l ≤ l2) (hu : u2 ≤ u)
    (hconst : ∀ k, l2 ≤ k → k ≤ u2 →
      discBase genome positions cfg p k = discBase genome positions cfg p l2) :
    SortedFrom genome positions cfg L (p + 1) l2 u2 := by
  intro k hk i hik hli
  have h := hs k (le_trans hk hu) i hik (le_trans hl hli)
  rw [keyFrom_cons genome positions cfg L p i hp,
    keyFrom_cons genome positions cfg L p k hp,
    hconst i hli (le_trans hik hk), hconst k (le_trans hli hik) hk] at h
  exact lexLeB_cons_same _ _ _ h

/-- Specification of the lower-bound search on a range whose first
discriminator component is monotone: everything left of the result is
strictly below `chr`, and the result either carries a base `≥ chr` or is
the right end of the range. -/
theorem lowerBoundGo_spec (cfg : SeedConfig) (chr : Char) (cmp_pos : Nat)
    (positions : List GenomePosition) (genome : Genome) (l0 u0 : Nat)
    (Mono : ∀ i k, l0 ≤ i → i ≤ k → k ≤ u0 →
      discBase genome positions cfg cmp_pos i ≤ discBase genome positions cfg cmp_pos k) :
    ∀ fuel lo hi, l0 ≤ lo → lo ≤ hi → hi ≤ u0 → hi - lo < fuel →
      (∀ k, lo ≤ k → k < lowerBoundGo cfg chr cmp_pos positions genome fuel lo hi →
        discBase genome positions cfg cmp_pos k < chr) ∧
      (chr ≤ discBase genome positions cfg cmp_pos
          (lowerBoundGo cfg chr cmp_pos positions genome fuel lo hi) ∨
        lowerBoundGo cfg chr cmp_pos positions genome fuel lo hi = hi) := by
  intro fuel
  induction fuel with
  | zero => intro lo hi h0 h1 h2 h3; omega
  | succ f ih =>
    intro lo hi h0 h1 h2 h3
    simp only [lowerBoundGo]
    by_cases hlh : lo < hi
    · rw [if_pos hlh]
      by_cases hcc : chr ≤ discBase genome positions cfg cmp_pos ((lo + hi) / 2)
      · rw [if_pos hcc]
        have hrec := ih lo ((lo + hi) / 2) h0 (by omega) (by omega) (by omega)
        refine ⟨hrec.1, ?_⟩
        rcases hrec.2 with h | h
        · exact Or.inl h
        · exact Or.inl (by rw [h]; exact hcc)
      · rw [if_neg hcc]
        have hmid : discBase genome positions cfg cmp_pos ((lo + hi) / 2) < chr :=
          not_le.mp hcc
        have hrec := ih ((lo + hi) / 2 + 1) hi (by omega) (by omega) h2 (by omega)
        refine ⟨?_, hrec.2⟩
        intro k hk1 hk2
        by_cases hkm : k ≤ (lo + hi) / 2
        · exact lt_of_le_of_lt (Mono k ((lo + hi) / 2) (by omega) hkm (by omega)) hmid
        · exact hrec.1 k (by omega) hk2
    · rw [if_neg hlh]
      exact ⟨fun k hk1 hk2 => absurd hk2 (by omega), Or.inr (by omega)⟩

/-- Specification of the upper-bound search on a monotone range:
everything right of the result is strictly above `chr`, and the result
either carries a base `≤ chr` or is the left end of the range. -/
theorem upperBoundGo_spec (cfg : SeedConfig) (chr : Char) (cmp_pos : Nat)
    (positions : List GenomePosition) (genome : Genome) (l0 u0 : Nat)
    (Mono : ∀ i k, l0 ≤ i → i ≤ k → k ≤ u0 →
      discBase genome positions cfg cmp_pos i ≤ discBase genome positions cfg cmp_pos k) :
    ∀ fuel lo hi, l0 ≤ lo → lo ≤ hi → hi ≤ u0 → hi - lo < fuel →
      (∀ k, upperBoundGo cfg chr cmp_pos positions genome fuel lo hi < k → k ≤ hi →
        chr < discBase genome positions cfg cmp_pos k) ∧
      (discBase genome positions cfg cmp_pos
          (upperBoundGo cfg chr cmp_pos positions genome fuel lo hi) ≤ chr ∨
        upperBoundGo cfg chr cmp_pos positions genome fuel lo hi = lo) := by
  intro fuel
  induction fuel with
  | zero => intro lo hi h0 h1 h2 h3; omega
  | succ f ih =>
    intro lo hi h0 h1 h2 h3
    simp only [upperBoundGo]
    by_cases hlh : lo < hi
    · rw [if_pos hlh]
      by_cases hcc : discBase genome positions cfg cmp_pos ((lo + hi + 1) / 2) ≤ chr
      · rw [if_pos hcc]
        have hrec := ih ((lo + hi + 1) / 2) hi (by omega) (by omega) h2 (by omega)
        refine ⟨hrec.1, ?_⟩
        rcases hrec.2 with h | h
        · exact Or.inl h
        · exact Or.inl (by rw [h]; exact hcc)
      · rw [if_neg hcc]
        have hmid : chr < discBase genome positions cfg cmp_pos ((lo + hi + 1) / 2) :=
          not_le.mp hcc
        have hrec := ih lo ((lo + hi + 1) / 2 - 1) h0 (by omega) (by omega) (by omega)
        refine ⟨?_, hrec.2⟩
        intro k hk1 hk2
        by_cases hkm : (lo + hi + 1) / 2 ≤ k
        · exact lt_of_lt_of_le hmid (Mono ((lo + hi + 1) / 2) k (by omega) hkm (by omega))
        · exact hrec.1 k hk1 (by omega)
    · rw [if_neg hlh]
      exact ⟨fun k hk1 hk2 => absurd hk1 (by omega), Or.inr rfl⟩

/-- `lowerBoundGo_spec` for the `LowerBound` wrapper. -/
theorem LowerBound_spec (cfg : SeedConfig) (chr : Char) (cmp_pos : Nat)
    (positions : List GenomePosition) (genome : Genome) (l0 u0 : Nat)
    (Mono : ∀ i k, l0 ≤ i → i ≤ k → k ≤ u0 →
      discBase genome positions cfg cmp_pos i ≤ discBase genome positions cfg cmp_pos k)
    (lo hi : Nat) (h0 : l0 ≤ lo) (h1 : lo ≤ hi) (h2 : hi ≤ u0) :
    (∀ k, lo ≤ k → k < LowerBound cfg lo hi chr cmp_pos positions genome →
      discBase genome positions cfg cmp_pos k < chr) ∧
    (chr ≤ discBase genome positions cfg cmp_pos
        (LowerBound cfg lo hi chr cmp_pos positions genome) ∨
      LowerBound cfg lo hi chr cmp_pos positions genome = hi) :=
  lowerBoundGo_spec cfg chr cmp_pos positions genome l0 u0 Mono
    (hi + 1 - lo) lo hi h0 h1 h2 (by omega)

/-- `upperBoundGo_spec` for the `UpperBound` wrapper. -/
theorem UpperBound_spec (cfg : SeedConfig) (chr : Char) (cmp_pos : Nat)
    (positions : List GenomePosition) (genome : Genome) (l0 u0 : Nat)
    (Mono : ∀ i k, l0 ≤ i → i ≤ k → k ≤ u0 →
      discBase genome positions cfg cmp_pos i ≤ discBase genome positions cfg cmp_pos k)
    (lo hi : Nat) (h0 : l0 ≤ lo) (h1 : lo ≤ hi) (h2 : hi ≤ u0) :
    (∀ k, UpperBound cfg lo hi chr cmp_pos positions genome < k → k ≤ hi →
      chr < discBase genome positions cfg cmp_pos k) ∧
    (discBase genome positions cfg cmp_pos
        (UpperBound cfg lo hi chr cmp_pos positions genome) ≤ chr ∨
      UpperBound cfg lo hi chr cmp_pos positions genome = lo) :=
  upperBoundGo_spec cfg chr cmp_pos positions genome l0 u0 Mono
    (hi + 1 - lo) lo hi h0 h1 h2 (by omega)

/-- `lowerBoundGo_bounds` for the `LowerBound` wrapper. -/
theorem LowerBound_bounds (cfg : SeedConfig) (chr : Char) (cmp_pos : Nat)
    (positions : List GenomePosition) (genome : Genome) (lo hi : Nat) (h : lo ≤ hi) :
    lo ≤ LowerBound cfg lo hi chr cmp_pos positions genome ∧
    LowerBound cfg lo hi chr cmp_pos positions genome ≤ hi :=
  lowerBoundGo_bounds cfg chr cmp_pos positions genome (hi + 1 - lo) lo hi h

/-- `upperBoundGo_bounds` for the `UpperBound` wrapper. -/
theorem UpperBound_bounds (cfg : SeedConfig) (chr : Char) (cmp_pos : Nat)
    (positions : List GenomePosition) (genome : Genome) (lo hi : Nat) (h : lo ≤ hi) :
    lo ≤ UpperBound cfg lo hi chr cmp_pos positions genome ∧
    UpperBound cfg lo hi chr cmp_pos positions genome ≤ hi :=
  upperBoundGo_bounds cfg chr cmp_pos positions genome (hi + 1 - lo) lo hi h

/-- The refinement loop never loses a bucket entry whose discriminator
bases all match the read: if `j` lies in the sorted slice `[l, u]` and
matches at every remaining discriminator, it lies in the refined slice. -/
theorem refineGo_keeps (cfg : SeedConfig) (read : List Char)
    (positions : List GenomePosition) (genome : Genome) (L j : Nat) :
    ∀ fuel p l u, fuel ≤ L - p →
      SortedFrom genome positions cfg L p l u →
      (∀ q, q < L → p ≤ q →
        discBase genome positions cfg q j = read.getD (cfg.F2SEEDPOSITION q) 'A') →
      l ≤ j → j ≤ u →
      (refineGo cfg read positions genome fuel p l u).1 ≤ j ∧
        j ≤ (refineGo cfg read positions genome fuel p l u).2 := by
  intro fuel
  induction fuel with
  | zero => intro p l u _ _ _ hlj hju; exact ⟨hlj, hju⟩
  | succ f ih =>
    intro p l u hfuel hs hmatch hlj hju
    have hpL : p < L := by omega
    simp only [refineGo]
    set chr := read.getD (cfg.F2SEEDPOSITION p) 'A' with hchrdef
    set l2 := LowerBound cfg l u chr p positions genome with hl2def
    set u2 := UpperBound cfg l2 u chr p positions genome with hu2def
    have hdj : discBase genome positions cfg p j = chr := hmatch p hpL (le_refl p)
    have hMono := sortedFrom_mono genome positions cfg L p l u hpL hs
    have hlu : l ≤ u := le_trans hlj hju
    have hLBs := LowerBound_spec cfg chr p positions genome l u hMono l u
      (le_refl l) hlu (le_refl u)
    have hLBb := LowerBound_bounds cfg chr p positions genome l u hlu
    have hl2j : l2 ≤ j := by
      by_contra hcon
      push_neg at hcon
      have hx := hLBs.1 j hlj hcon
      rw [hdj] at hx
      exact lt_irrefl chr hx
    have hUBs := UpperBound_spec cfg chr p positions genome l u hMono l2 u
      hLBb.1 hLBb.2 (le_refl u)
    have hUBb := UpperBound_bounds cfg chr p positions genome l2 u hLBb.2
    have hju2 : j ≤ u2 := by
      by_contra hcon
      push_neg at hcon
      have hx := hUBs.1 j hcon hju
      rw [hdj] at hx
      exact lt_irrefl chr hx
    have hdl2 : discBase genome positions cfg p l2 = chr := by
      rcases hLBs.2 with h | h
      · have h2 := hMono l2 j hLBb.1 hl2j hju
        rw [hdj] at h2
        exact le_antisymm h2 h
      · have hjeq : j = l2 := by omega
        rw [← hjeq]
        exact hdj
    have hconst : ∀ k, l2 ≤ k → k ≤ u2 →
        discBase genome positions cfg p k = discBase genome positions cfg p l2 := by
      intro k hk1 hk2
      have hge : chr ≤ discBase genome positions cfg p k := by
        rw [← hdl2]
        exact hMono l2 k hLBb.1 hk1 (le_trans hk2 hUBb.2)
      have hle : discBase genome positions cfg p k ≤ chr := by
        rcases hUBs.2 with h | h
        · exact le_trans (hMono k u2 (le_trans hLBb.1 hk1) hk2 hUBb.2) h
        · have hkeq : k = l2 := by omega
          rw [hkeq, hdl2]
      rw [hdl2]
      exact le_antisymm hle hge
    exact ih (p + 1) l2 u2 (by omega)
      (sortedFrom_step genome positions cfg L p l u l2 u2 hpL hs hLBb.1 hUBb.2 hconst)
      (fun q hq hpq => hmatch q hq (by omega))
      hl2j hju2

/-- C1 (amended): completeness of `GetRegion` — for a bucket sorted
lexicographically by the discriminator keys, every entry `j` whose
reference bases at `F2SEEDPOSITION[p]` equal the suffix's bases for all
`p ∈ [F2SEEDWIGTH, seed_length)` lies inside the returned region
`[low, high]` (which is then non-empty).  The claim's converse — that the
region contains **only** matching positions — is false: when the sought
base is absent the searches still land on a non-matching entry (see the
counterexample); such false positives are later rejected by the verifier. -/
theorem getRegion_complete (cfg : SeedConfig) (read : List Char)
    (positions : List GenomePosition) (genome : Genome) (seed_length j : Nat)
    (hj : j < positions.length)
    (hsorted : SortedFrom genome positions cfg seed_length cfg.F2SEEDWIGTH 0
      (positions.length - 1))
    (hmatch : ∀ q, q < seed_length → cfg.F2SEEDWIGTH ≤ q →
      discBase genome positions cfg q j = read.getD (cfg.F2SEEDPOSITION q) 'A') :
    (GetRegion cfg read positions genome seed_length).1 ≤ j ∧
      j ≤ (GetRegion cfg read positions genome seed_length).2 := by
  have hkeep := refineGo_keeps cfg read positions genome seed_length j
    (seed_length - cfg.F2SEEDWIGTH) cfg.F2SEEDWIGTH 0 (positions.length - 1)
    (le_refl _) hsorted hmatch (Nat.zero_le j) (by omega)
  unfold GetRegion
  rw [if_neg (by omega : ¬ positions.length = 0)]
  dsimp only
  have h1 := hkeep.1
  have h2 := hkeep.2
  rw [if_neg (by omega :
    ¬ (refineGo cfg read positions genome (seed_length - cfg.F2SEEDWIGTH)
        cfg.F2SEEDWIGTH 0 (positions.length - 1)).1 >
      (refineGo cfg read positions genome (seed_length - cfg.F2SEEDWIGTH)
        cfg.F2SEEDWIGTH 0 (positions.length - 1)).2)]
  exact hkeep

/-- C1 amended-theorem witness: a sorted two-entry bucket where entry 1
matches the read at the discriminator; the refined region is `[1, 1]`. -/
theorem getRegion_complete_witness :
    (GetRegion cfgC1 readW posW genW 2).1 ≤ 1 ∧
      1 ≤ (GetRegion cfgC1 readW posW genW 2).2 :=
  getRegion_complete cfgC1 readW posW genW 2 1 (by decide) (by decide) (by decide)

/-- C7 (amended): among configuration errors, a missing required option and
leftover arguments make `main` return `EXIT_SUCCESS` (exit code 0) before
any mapping work — lines 183-186 and 204-207 of `walt.cpp` — while a bad
index suffix, an invalid single/paired read-option combination, bad reads
suffixes, mismatched mate file counts and out-of-range `k` return
`EXIT_FAILURE`, also before any mapping work.  So exit code 0 is **not**
reserved for success, contrary to the claim (see the counterexample). -/
theorem mainOutcome_config_error_paths (o : OptState)
    (hA : o.argcOne = false) (hH : o.helpRequested = false)
    (hAb : o.aboutRequested = false) :
    (o.optionMissing = true → mainOutcome o = MainOutcome.exitedSuccess) ∧
    (o.optionMissing = false →
      is_valid_filename o.indexFile ['d','b','i','n','d','e','x'] = false →
      mainOutcome o = MainOutcome.exitedFailure) ∧
    (o.optionMissing = false →
      is_valid_filename o.indexFile ['d','b','i','n','d','e','x'] = true →
      singleModeB o = false → pairedModeB o = false →
      mainOutcome o = MainOutcome.exitedFailure) ∧
    (o.optionMissing = false →
      is_valid_filename o.indexFile ['d','b','i','n','d','e','x'] = true →
      singleModeB o = true → o.leftoverArgs ≠ [] →
      mainOutcome o = MainOutcome.exitedSuccess) ∧
    (o.optionMissing = false →
      is_valid_filename o.indexFile ['d','b','i','n','d','e','x'] = true →
      singleModeB o = true → o.leftoverArgs = [] →
      validFastqList (smithlabSplit o.readsFileS) = false →
      mainOutcome o = MainOutcome.exitedFailure) ∧
    (o.optionMissing = false →
      is_valid_filename o.indexFile ['d','b','i','n','d','e','x'] = true →
      singleModeB o = false → pairedModeB o = true → o.leftoverArgs = [] →
      ((smithlabSplit o.readsFileP1).length ≠ (smithlabSplit o.readsFileP2).length ∨
        validFastqList (smithlabSplit o.readsFileP1) = false ∨
        validFastqList (smithlabSplit o.readsFileP2) = false ∨
        o.topK < 2 ∨ o.topK > 300) →
      mainOutcome o = MainOutcome.exitedFailure) := by
  refine ⟨?_, ?_, ?_, ?_, ?_, ?_⟩
  · intro hM
    simp [mainOutcome, hA, hH, hAb, hM]
  · intro hM hIdx
    simp [mainOutcome, hA, hH, hAb, hM, hIdx]
  · intro hM hIdx hSm hPm
    simp [mainOutcome, hA, hH, hAb, hM, hIdx, hSm, hPm]
  · intro hM hIdx hSm hL
    simp [mainOutcome, hA, hH, hAb, hM, hIdx, hSm, hL]
  · intro hM hIdx hSm hL hV
    simp [mainOutcome, hA, hH, hAb, hM, hIdx, hSm, hL, hV]
  · intro hM hIdx hSm hPm hL hbad
    by_cases h1 : (smithlabSplit o.readsFileP1).length = (smithlabSplit o.readsFileP2).length
    · by_cases h2 : validFastqList (smithlabSplit o.readsFileP1) = true
      · by_cases h3 : validFastqList (smithlabSplit o.readsFileP2) = true
        · rcases hbad with h | h | h | h | h
          · exact absurd h1 h
          · rw [h2] at h
            exact absurd h (by decide)
          · rw [h3] at h
            exact absurd h (by decide)
          · simp [mainOutcome, hA, hH, hAb, hM, hIdx, hSm, hPm, hL, h1, h2, h3, h]
          · have hk2 : ¬ o.topK < 2 := by omega
            simp [mainOutcome, hA, hH, hAb, hM, hIdx, hSm, hPm, hL, h1, h2, h3, hk2, h]
        · simp [mainOutcome, hA, hH, hAb, hM, hIdx, hSm, hPm, hL, h1, h2, h3]
      · simp [mainOutcome, hA, hH, hAb, hM, hIdx, hSm, hPm, hL, h1, h2]
    · simp [mainOutcome, hA, hH, hAb, hM, hIdx, hSm, hPm, hL, h1]

/-- C7 amended-theorem witness: the missing-required-option command line
exits with code 0. -/
theorem mainOutcome_config_error_paths_witness :
    mainOutcome cmOptMissing = MainOutcome.exitedSuccess :=
  (mainOutcome_config_error_paths cmOptMissing rfl rfl rfl).1 rfl
